import Mathlib

/-!
Shallow embedding of the market-analysis core of `src/main.py` (a Telegram
trading bot).  Prices are modelled as rationals; pandas `NaN` cells (rolling
windows with fewer than 5 values) are modelled as `Option` `none`, and every
comparison against `NaN`/`none` is `false`, as in pandas.  Python's
`round(x, 4)` (round-half-to-even at 4 decimal places) is modelled exactly on
rationals.  The `try/except` in `analyze_market` is modelled by an `Except`
result of the core computation that the wrapper collapses to `[]`.
-/

namespace MyBot

/-- One OHLCV row of the DataFrame built in `analyze_market`
(`timestamp, open, high, low, close, volume`).  `open` is a Lean keyword,
so that column is named `opn`. -/
structure Candle where
  ts : ℕ
  opn : ℚ
  high : ℚ
  low : ℚ
  close : ℚ
  vol : ℚ
deriving DecidableEq, Repr

/-- The emitted signal dictionary of `analyze_market`. -/
structure Signal where
  pair : String
  signal : String
  entry : ℚ
  sl : ℚ
  tp : ℚ
  timeframe : String
  risk : String
deriving DecidableEq, Repr

/-- `TRADE_PAIRS` from `src/main.py` line 28. -/
def TRADE_PAIRS : List String :=
  ["BTC/USDT", "ETH/USDT", "SOL/USDT", "XRP/USDT", "ADA/USDT"]

/-- `TIMEFRAME` from `src/main.py` line 29. -/
def TIMEFRAME : String := "15m"

/-- `RISK_REWARD_RATIO = 2.5` from `src/main.py` line 31. -/
def riskRewardRatio : ℚ := 2.5

/-- The string `f"${RISK_PER_TRADE * 10} (20%)"` with `RISK_PER_TRADE = 0.2`:
Python formats `0.2 * 10` as `2.0`. -/
def riskText : String := "$2.0 (20%)"

/-- Round-half-to-even to an integer, the idealized (decimal) semantics of
Python 3's `round`. -/
def rhe (q : ℚ) : ℤ :=
  let f := ⌊q⌋
  let r := q - f
  if r < 1/2 then f
  else if 1/2 < r then f + 1
  else if 2 ∣ f then f else f + 1

/-- Python's `round(x, 4)` on rationals. -/
def pyRound4 (x : ℚ) : ℚ := (rhe (x * 10000) : ℚ) / 10000

/-- `max` of a nonempty rational list, `none` on `[]` (pandas `max` / `NaN`). -/
def listMax : List ℚ → Option ℚ
  | [] => none
  | a :: as => some (as.foldl max a)

/-- `min` of a nonempty rational list, `none` on `[]`. -/
def listMin : List ℚ → Option ℚ
  | [] => none
  | a :: as => some (as.foldl min a)

/-- `series.rolling(5).max()` evaluated at row `i`: the maximum of rows
`i-4 .. i` when at least 5 rows are available there, `NaN` (`none`)
otherwise (pandas default `min_periods = window`). -/
def rollingMax5 (xs : List ℚ) (i : ℕ) : Option ℚ :=
  if 4 ≤ i ∧ i < xs.length then listMax ((xs.drop (i - 4)).take 5) else none

/-- `series.rolling(5).min()` evaluated at row `i`. -/
def rollingMin5 (xs : List ℚ) (i : ℕ) : Option ℚ :=
  if 4 ≤ i ∧ i < xs.length then listMin ((xs.drop (i - 4)).take 5) else none

/-- A pandas comparison `a > b` where `b` may be `NaN`: false on `NaN`. -/
def gtOpt (a : ℚ) (b : Option ℚ) : Bool :=
  match b with
  | some m => decide (m < a)
  | none => false

/-- A pandas comparison `a < b` where `b` may be `NaN`: false on `NaN`. -/
def ltOpt (a : ℚ) (b : Option ℚ) : Bool :=
  match b with
  | some m => decide (a < m)
  | none => false

/-- Placeholder row used with `List.getD`; every use is guarded by a length
check mirroring the `IndexError` the Python code would raise. -/
def defaultCandle : Candle := ⟨0, 0, 0, 0, 0, 0⟩

/-- `df.iloc[-1]` — the latest candle. -/
def lastC (cs : List Candle) : Candle := cs.getD (cs.length - 1) defaultCandle

/-- `df.iloc[-2]` — the previous candle. -/
def prevC (cs : List Candle) : Candle := cs.getD (cs.length - 2) defaultCandle

/-- `prev_candle['liq_high']`: the rolling 5-bar max of highs at row `n-2`. -/
def liqHighPrev (cs : List Candle) : Option ℚ :=
  rollingMax5 (cs.map Candle.high) (cs.length - 2)

/-- `prev_candle['liq_low']`: the rolling 5-bar min of lows at row `n-2`. -/
def liqLowPrev (cs : List Candle) : Option ℚ :=
  rollingMin5 (cs.map Candle.low) (cs.length - 2)

/-- The breakout conjunct of the bullish entry condition
(`last_candle['high'] > prev_candle['liq_high']`, `src/main.py` line 73). -/
def bosBullish (cs : List Candle) : Bool :=
  gtOpt (lastC cs).high (liqHighPrev cs)

/-- The breakout conjunct of the bearish entry condition
(`last_candle['low'] < prev_candle['liq_low']`, `src/main.py` line 87). -/
def bosBearish (cs : List Candle) : Bool :=
  ltOpt (lastC cs).low (liqLowPrev cs)

/-- The bullish entry condition of `src/main.py` line 73:
`last_candle['high'] > prev_candle['liq_high'] and
 last_candle['close'] > prev_candle['close']`. -/
def bullCond (cs : List Candle) : Bool :=
  bosBullish cs && decide ((prevC cs).close < (lastC cs).close)

/-- The bearish entry condition of `src/main.py` line 87:
`last_candle['low'] < prev_candle['liq_low'] and
 last_candle['close'] < prev_candle['close']`. -/
def bearCond (cs : List Candle) : Bool :=
  bosBearish cs && decide ((lastC cs).close < (prevC cs).close)

/-- The BUY signal dictionary built at `src/main.py` lines 76-84.  The
`getD 0` is only reached when `liq_low` is `NaN`, which `bullCond` excludes
(both rolling columns become non-`NaN` at the same row). -/
def mkBuySignal (p : String) (cs : List Candle) : Signal :=
  let entry := (lastC cs).close
  let sl := (liqLowPrev cs).getD 0
  { pair := p, signal := "BUY", entry := pyRound4 entry, sl := pyRound4 sl,
    tp := pyRound4 (entry + (entry - sl) * riskRewardRatio),
    timeframe := TIMEFRAME, risk := riskText }

/-- The SELL signal dictionary built at `src/main.py` lines 90-98. -/
def mkSellSignal (p : String) (cs : List Candle) : Signal :=
  let entry := (lastC cs).close
  let sl := (liqHighPrev cs).getD 0
  { pair := p, signal := "SELL", entry := pyRound4 entry, sl := pyRound4 sl,
    tp := pyRound4 (entry - (sl - entry) * riskRewardRatio),
    timeframe := TIMEFRAME, risk := riskText }

/-- The body of the `try` block of `analyze_market` applied to already-fetched
candle data.  `df.iloc[-2]` raises `IndexError` when fewer than 2 rows exist;
that exception is the `Except.error` branch. -/
def analyzeCore (p : String) (cs : List Candle) : Except String (List Signal) :=
  if 2 ≤ cs.length then
    Except.ok ((if bullCond cs then [mkBuySignal p cs] else []) ++
               (if bearCond cs then [mkSellSignal p cs] else []))
  else Except.error "IndexError"

/-- `analyze_market pair`: the fetch result (`ohlcv` rows, or a raised fetch
exception) is passed in as an `Except`; any exception — from the fetch or from
the analysis — is caught by the handler at lines 102-104 and becomes `[]`. -/
def analyze_market (p : String) (fetched : Except String (List Candle)) : List Signal :=
  match fetched with
  | Except.error _ => []
  | Except.ok cs =>
    match analyzeCore p cs with
    | Except.error _ => []
    | Except.ok sigs => sigs

/-- The loop body of `scan_markets` (`src/main.py` lines 127-131): each pair is
analyzed in order and every returned signal is sent. The returned list is the
sequence of signals sent. -/
def scanLoop (fetch : String → Except String (List Candle)) : List String → List Signal
  | [] => []
  | p :: ps => analyze_market p (fetch p) ++ scanLoop fetch ps

/-- `scan_markets`: one `/scan` tick over `TRADE_PAIRS`. -/
def scan_markets (fetch : String → Except String (List Candle)) : List Signal :=
  scanLoop fetch TRADE_PAIRS

/-- `n` consecutive `/scan` invocations against the same market data
(the source keeps no state between invocations, so each tick reruns
`scan_markets` afresh). -/
def runTicks (fetch : String → Except String (List Candle)) : ℕ → List Signal
  | 0 => []
  | n + 1 => scan_markets fetch ++ runTicks fetch n

/-- The highs of the 5 candles immediately preceding the latest one (latest
excluded), written from the spec's description of the break-of-structure
window, for comparison with the rolling column the source uses. -/
def precedingHighs (cs : List Candle) : List ℚ :=
  ((cs.drop (cs.length - 6)).take 5).map Candle.high

/-- The lows of the 5 candles immediately preceding the latest one. -/
def precedingLows (cs : List Candle) : List ℚ :=
  ((cs.drop (cs.length - 6)).take 5).map Candle.low

/-- Modelled from the spec: the `FairValueGap` detector of §4.2 is absent from
`src/main.py`; following the spec's words, the bullish fair-value-gap holds
iff `candle[-1].low > candle[-3].high`. -/
def specFairValueGapBullish (cs : List Candle) : Bool :=
  decide ((cs.getD (cs.length - 3) defaultCandle).high < (lastC cs).low)

/-- A 6-candle fixture: five flat candles (high 10, close 9) followed by a
breakout candle (high 11, close 10.5, low 9) that fires the BUY branch. -/
def fixBuy : List Candle :=
  [⟨0, 9, 10, 5, 9, 1⟩, ⟨1, 9, 10, 6, 9, 1⟩, ⟨2, 9, 10, 6, 9, 1⟩,
   ⟨3, 9, 10, 6, 9, 1⟩, ⟨4, 9, 10, 6, 9, 1⟩, ⟨5, 9, 11, 9, 10.5, 1⟩]

/-- A 6-candle fixture whose last candle (low 5.5, close 6) fires the SELL
branch. -/
def fixSell : List Candle :=
  [⟨0, 9, 10, 6, 9, 1⟩, ⟨1, 9, 10, 6, 9, 1⟩, ⟨2, 9, 10, 6, 9, 1⟩,
   ⟨3, 9, 10, 6, 9, 1⟩, ⟨4, 9, 10, 6, 9, 1⟩, ⟨5, 9, 9.5, 5.5, 6, 1⟩]

/-- The signal `analyze_market` emits on `fixBuy`:
entry 10.5, stop 5, take-profit 10.5 + 5.5 * 2.5 = 24.25. -/
def fixBuySignal : Signal :=
  ⟨"BTC/USDT", "BUY", 10.5, 5, 24.25, "15m", "$2.0 (20%)"⟩

/-- A market-data feed where only BTC/USDT returns data (the `fixBuy`
candles) and every other pair raises a fetch error. -/
def fixFetch : String → Except String (List Candle) :=
  fun p => if p = "BTC/USDT" then Except.ok fixBuy else Except.error "FetchFailure"

theorem foldl_max_mem (l : List ℚ) : ∀ a : ℚ, l.foldl max a ∈ a :: l := by
  induction l with
  | nil => intro a; simp
  | cons b t ih =>
    intro a
    rw [List.foldl_cons]
    rcases List.mem_cons.mp (ih (max a b)) with h1 | h1
    · rw [h1]
      rcases max_choice a b with hm | hm <;> rw [hm]
      · exact List.mem_cons_self _ _
      · exact List.mem_cons_of_mem _ (List.mem_cons_self _ _)
    · exact List.mem_cons_of_mem _ (List.mem_cons_of_mem _ h1)

theorem le_foldl_max (l : List ℚ) : ∀ a x : ℚ, x ∈ a :: l → x ≤ l.foldl max a := by
  induction l with
  | nil => intro a x hx; simp at hx; simp [hx]
  | cons b t ih =>
    intro a x hx
    rw [List.foldl_cons]
    rcases List.mem_cons.mp hx with h1 | h1
    · rw [h1]
      exact le_trans (le_max_left a b) (ih (max a b) (max a b) (List.mem_cons_self _ _))
    · rcases List.mem_cons.mp h1 with h2 | h2
      · rw [h2]
        exact le_trans (le_max_right a b) (ih (max a b) (max a b) (List.mem_cons_self _ _))
      · exact ih (max a b) x (List.mem_cons_of_mem _ h2)

theorem foldl_min_mem (l : List ℚ) : ∀ a : ℚ, l.foldl min a ∈ a :: l := by
  induction l with
  | nil => intro a; simp
  | cons b t ih =>
    intro a
    rw [List.foldl_cons]
    rcases List.mem_cons.mp (ih (min a b)) with h1 | h1
    · rw [h1]
      rcases min_choice a b with hm | hm <;> rw [hm]
      · exact List.mem_cons_self _ _
      · exact List.mem_cons_of_mem _ (List.mem_cons_self _ _)
    · exact List.mem_cons_of_mem _ (List.mem_cons_of_mem _ h1)

theorem foldl_min_le (l : List ℚ) : ∀ a x : ℚ, x ∈ a :: l → l.foldl min a ≤ x := by
  induction l with
  | nil => intro a x hx; simp at hx; simp [hx]
  | cons b t ih =>
    intro a x hx
    rw [List.foldl_cons]
    rcases List.mem_cons.mp hx with h1 | h1
    · rw [h1]
      exact le_trans (ih (min a b) (min a b) (List.mem_cons_self _ _)) (min_le_left a b)
    · rcases List.mem_cons.mp h1 with h2 | h2
      · rw [h2]
        exact le_trans (ih (min a b) (min a b) (List.mem_cons_self _ _)) (min_le_right a b)
      · exact ih (min a b) x (List.mem_cons_of_mem _ h2)

theorem listMax_spec (l : List ℚ) (m : ℚ) (h : listMax l = some m) :
    m ∈ l ∧ ∀ x ∈ l, x ≤ m := by
  cases l with
  | nil => simp [listMax] at h
  | cons a t =>
    simp only [listMax, Option.some.injEq] at h
    subst h
    refine ⟨foldl_max_mem t a, fun x hx => le_foldl_max t a x hx⟩

theorem listMin_spec (l : List ℚ) (m : ℚ) (h : listMin l = some m) :
    m ∈ l ∧ ∀ x ∈ l, m ≤ x := by
  cases l with
  | nil => simp [listMin] at h
  | cons a t =>
    simp only [listMin, Option.some.injEq] at h
    subst h
    refine ⟨foldl_min_mem t a, fun x hx => foldl_min_le t a x hx⟩

theorem listMax_of_ne_nil (l : List ℚ) (h : l ≠ []) : ∃ m, listMax l = some m := by
  cases l with
  | nil => exact absurd rfl h
  | cons a t => exact ⟨t.foldl max a, rfl⟩

theorem listMin_of_ne_nil (l : List ℚ) (h : l ≠ []) : ∃ m, listMin l = some m := by
  cases l with
  | nil => exact absurd rfl h
  | cons a t => exact ⟨t.foldl min a, rfl⟩

theorem liqHighPrev_eq_none (cs : List Candle) (h : cs.length < 6) :
    liqHighPrev cs = none := by
  unfold liqHighPrev rollingMax5
  rw [if_neg]
  rintro ⟨h1, _⟩
  omega

theorem liqLowPrev_eq_none (cs : List Candle) (h : cs.length < 6) :
    liqLowPrev cs = none := by
  unfold liqLowPrev rollingMin5
  rw [if_neg]
  rintro ⟨h1, _⟩
  omega

theorem liqHighPrev_eq_listMax (cs : List Candle) (h : 6 ≤ cs.length) :
    liqHighPrev cs = listMax (precedingHighs cs) := by
  unfold liqHighPrev rollingMax5 precedingHighs
  rw [if_pos (by simp only [List.length_map]; omega)]
  have e : cs.length - 2 - 4 = cs.length - 6 := by omega
  rw [e, ← List.map_drop, ← List.map_take]

theorem liqLowPrev_eq_listMin (cs : List Candle) (h : 6 ≤ cs.length) :
    liqLowPrev cs = listMin (precedingLows cs) := by
  unfold liqLowPrev rollingMin5 precedingLows
  rw [if_pos (by simp only [List.length_map]; omega)]
  have e : cs.length - 2 - 4 = cs.length - 6 := by omega
  rw [e, ← List.map_drop, ← List.map_take]

theorem precedingWindow_ne_nil (cs : List Candle) (h : 6 ≤ cs.length) :
    (cs.drop (cs.length - 6)).take 5 ≠ [] := by
  rw [← List.length_pos]
  simp only [List.length_take, List.length_drop]
  omega

theorem liqHighPrev_some_iff (cs : List Candle) :
    (∃ m, liqHighPrev cs = some m) ↔ 6 ≤ cs.length := by
  constructor
  · rintro ⟨m, hm⟩
    by_contra hn
    rw [liqHighPrev_eq_none cs (by omega)] at hm
    exact Option.noConfusion hm
  · intro h
    rw [liqHighPrev_eq_listMax cs h]
    exact listMax_of_ne_nil _ (by
      intro hnil
      exact precedingWindow_ne_nil cs h (List.map_eq_nil_iff.mp hnil))

theorem liqLowPrev_some_iff (cs : List Candle) :
    (∃ m, liqLowPrev cs = some m) ↔ 6 ≤ cs.length := by
  constructor
  · rintro ⟨m, hm⟩
    by_contra hn
    rw [liqLowPrev_eq_none cs (by omega)] at hm
    exact Option.noConfusion hm
  · intro h
    rw [liqLowPrev_eq_listMin cs h]
    exact listMin_of_ne_nil _ (by
      intro hnil
      exact precedingWindow_ne_nil cs h (List.map_eq_nil_iff.mp hnil))

theorem prevC_mem_window (cs : List Candle) (h : 6 ≤ cs.length) :
    prevC cs ∈ (cs.drop (cs.length - 6)).take 5 := by
  have h4 : 4 < ((cs.drop (cs.length - 6)).take 5).length := by
    simp only [List.length_take, List.length_drop]
    omega
  have h4d : 4 < (cs.drop (cs.length - 6)).length := by
    simp only [List.length_drop]
    omega
  have hp : cs.length - 6 + 4 < cs.length := by omega
  have e1 : ((cs.drop (cs.length - 6)).take 5).get ⟨4, h4⟩ =
      (cs.drop (cs.length - 6)).get ⟨4, h4d⟩ := by
    simp only [List.get_eq_getElem]
    exact List.getElem_take _
  have e2 : (cs.drop (cs.length - 6)).get ⟨4, h4d⟩ =
      cs.get ⟨cs.length - 6 + 4, hp⟩ := by
    simp only [List.get_eq_getElem]
    exact List.getElem_drop _
  have e3 : prevC cs = cs.get ⟨cs.length - 6 + 4, hp⟩ := by
    unfold prevC
    rw [List.getD_eq_getElem cs defaultCandle (show cs.length - 2 < cs.length by omega)]
    simp only [List.get_eq_getElem]
    congr 1
    omega
  rw [e3, ← e2, ← e1]
  exact List.get_mem _ _ h4


theorem prev_high_mem_precedingHighs (cs : List Candle) (h : 6 ≤ cs.length) :
    (prevC cs).high ∈ precedingHighs cs :=
  List.mem_map_of_mem Candle.high (prevC_mem_window cs h)

theorem prev_low_mem_precedingLows (cs : List Candle) (h : 6 ≤ cs.length) :
    (prevC cs).low ∈ precedingLows cs :=
  List.mem_map_of_mem Candle.low (prevC_mem_window cs h)

theorem analyze_market_ok (p : String) (cs : List Candle) :
    analyze_market p (Except.ok cs) =
      (if bullCond cs then [mkBuySignal p cs] else []) ++
      (if bearCond cs then [mkSellSignal p cs] else []) := by
  by_cases h : 2 ≤ cs.length
  · simp [analyze_market, analyzeCore, h]
  · have h6 : cs.length < 6 := by omega
    have hb : bullCond cs = false := by
      simp [bullCond, bosBullish, gtOpt, liqHighPrev_eq_none cs h6]
    have hs : bearCond cs = false := by
      simp [bearCond, bosBearish, ltOpt, liqLowPrev_eq_none cs h6]
    simp [analyze_market, analyzeCore, h, hb, hs]

theorem mem_analyze_iff (p : String) (cs : List Candle) (s : Signal) :
    s ∈ analyze_market p (Except.ok cs) ↔
      (bullCond cs = true ∧ s = mkBuySignal p cs) ∨
      (bearCond cs = true ∧ s = mkSellSignal p cs) := by
  rw [analyze_market_ok]
  by_cases hb : bullCond cs <;> by_cases hr : bearCond cs <;> simp [hb, hr]

theorem bullCond_iff (cs : List Candle) :
    bullCond cs = true ↔
      ((∃ mh, liqHighPrev cs = some mh ∧ mh < (lastC cs).high) ∧
        (prevC cs).close < (lastC cs).close) := by
  unfold bullCond bosBullish gtOpt
  cases h : liqHighPrev cs with
  | none => simp [h]
  | some m => simp [h]

theorem bearCond_iff (cs : List Candle) :
    bearCond cs = true ↔
      ((∃ ml, liqLowPrev cs = some ml ∧ (lastC cs).low < ml) ∧
        (lastC cs).close < (prevC cs).close) := by
  unfold bearCond bosBearish ltOpt
  cases h : liqLowPrev cs with
  | none => simp [h]
  | some m => simp [h]

theorem scanLoop_eq_flatMap (fetch : String → Except String (List Candle))
    (ps : List String) :
    scanLoop fetch ps = ps.flatMap fun q => analyze_market q (fetch q) := by
  induction ps with
  | nil => rfl
  | cons p t ih => simp [scanLoop, ih]

theorem runTicks_eq_flatten (fetch : String → Except String (List Candle)) (n : ℕ) :
    runTicks fetch n = (List.replicate n (scan_markets fetch)).flatten := by
  induction n with
  | zero => rfl
  | succ k ih => simp [runTicks, List.replicate_succ, ih]

/-- The signal `analyze_market` emits on `fixSell`:
entry 6, stop 10, take-profit 6 - 4 * 2.5 = -4. -/
def fixSellSignal : Signal := ⟨"BTC/USDT", "SELL", 6, 10, -4, "15m", "$2.0 (20%)"⟩

theorem analyze_fixBuy : analyze_market "BTC/USDT" (Except.ok fixBuy) = [fixBuySignal] := by
  simp [analyze_market, analyzeCore, bullCond, bearCond, bosBullish, bosBearish, gtOpt, ltOpt,
        liqHighPrev, liqLowPrev, rollingMax5, rollingMin5, listMax, listMin, lastC, prevC,
        fixBuy, mkBuySignal, mkSellSignal, pyRound4, rhe, riskRewardRatio, TIMEFRAME, riskText,
        fixBuySignal]
  norm_num

theorem analyze_fixSell : analyze_market "BTC/USDT" (Except.ok fixSell) = [fixSellSignal] := by
  simp [analyze_market, analyzeCore, bullCond, bearCond, bosBullish, bosBearish, gtOpt, ltOpt,
        liqHighPrev, liqLowPrev, rollingMax5, rollingMin5, listMax, listMin, lastC, prevC,
        fixSell, mkBuySignal, mkSellSignal, pyRound4, rhe, riskRewardRatio, TIMEFRAME, riskText,
        fixSellSignal]
  norm_num [Int.fract]

theorem scan_fixFetch : scan_markets fixFetch = [fixBuySignal] := by
  show scanLoop fixFetch TRADE_PAIRS = [fixBuySignal]
  simp only [TRADE_PAIRS, scanLoop]
  rw [show fixFetch "BTC/USDT" = Except.ok fixBuy from rfl]
  rw [show fixFetch "ETH/USDT" = Except.error "FetchFailure" from rfl]
  rw [show fixFetch "SOL/USDT" = Except.error "FetchFailure" from rfl]
  rw [show fixFetch "XRP/USDT" = Except.error "FetchFailure" from rfl]
  rw [show fixFetch "ADA/USDT" = Except.error "FetchFailure" from rfl]
  rw [analyze_fixBuy]
  rfl

/-- C1 (counterexample): on the `fixBuy` candles a BUY signal is emitted even
though the spec's bullish fair-value-gap condition (`candle[-1].low >
candle[-3].high`) fails, so the four-way confluence conjunction is not
required for a signal. -/
theorem C1_counterexample :
    (∃ s ∈ analyze_market "BTC/USDT" (Except.ok fixBuy), s.signal = "BUY") ∧
    specFairValueGapBullish fixBuy = false := by
  constructor
  · refine ⟨fixBuySignal, ?_, rfl⟩
    rw [analyze_fixBuy]
    exact List.mem_singleton.mpr rfl
  · norm_num [specFairValueGapBullish, fixBuy, lastC, defaultCandle]

/-- C1 (amended): a BUY signal is emitted for a pair on a tick iff the latest
candle's high strictly exceeds the previous candle's rolling 5-bar maximum
high and the latest close strictly exceeds the previous close; symmetrically a
SELL signal fires iff the latest low strictly undercuts the previous candle's
rolling 5-bar minimum low and the latest close is strictly below the previous
close.  No fair-value-gap, trend, or zone-tap condition is evaluated. -/
theorem C1_signal_conditions (cs : List Candle) (p : String) :
    ((∃ s ∈ analyze_market p (Except.ok cs), s.signal = "BUY") ↔
      ((∃ mh, liqHighPrev cs = some mh ∧ mh < (lastC cs).high) ∧
        (prevC cs).close < (lastC cs).close)) ∧
    ((∃ s ∈ analyze_market p (Except.ok cs), s.signal = "SELL") ↔
      ((∃ ml, liqLowPrev cs = some ml ∧ (lastC cs).low < ml) ∧
        (lastC cs).close < (prevC cs).close)) := by
  constructor
  · rw [← bullCond_iff]
    constructor
    · rintro ⟨s, hs, hsig⟩
      rcases (mem_analyze_iff p cs s).mp hs with ⟨hb, _⟩ | ⟨_, hse⟩
      · exact hb
      · rw [hse] at hsig
        exact absurd hsig (by simp [mkSellSignal])
    · intro hb
      exact ⟨mkBuySignal p cs, (mem_analyze_iff p cs _).mpr (Or.inl ⟨hb, rfl⟩), rfl⟩
  · rw [← bearCond_iff]
    constructor
    · rintro ⟨s, hs, hsig⟩
      rcases (mem_analyze_iff p cs s).mp hs with ⟨_, hse⟩ | ⟨hr, _⟩
      · rw [hse] at hsig
        exact absurd hsig (by simp [mkBuySignal])
      · exact hr
    · intro hr
      exact ⟨mkSellSignal p cs, (mem_analyze_iff p cs _).mpr (Or.inr ⟨hr, rfl⟩), rfl⟩

/-- C2: every emitted signal carries `entry` and `sl` rounded to 4 decimals
from the latest close and the rolling extreme, and its take-profit is exactly
the risk-reward formula with ratio 2.5 (BUY: `entry + (entry - sl) * 2.5`,
SELL: `entry - (sl - entry) * 2.5`) applied to those unrounded levels and
rounded to the same 4-decimal precision. -/
theorem C2_take_profit (cs : List Candle) (p : String) (s : Signal)
    (hs : s ∈ analyze_market p (Except.ok cs)) :
    (s.signal = "BUY" → ∃ ml, liqLowPrev cs = some ml ∧
      s.entry = pyRound4 (lastC cs).close ∧ s.sl = pyRound4 ml ∧
      s.tp = pyRound4 ((lastC cs).close + ((lastC cs).close - ml) * riskRewardRatio)) ∧
    (s.signal = "SELL" → ∃ mh, liqHighPrev cs = some mh ∧
      s.entry = pyRound4 (lastC cs).close ∧ s.sl = pyRound4 mh ∧
      s.tp = pyRound4 ((lastC cs).close - (mh - (lastC cs).close) * riskRewardRatio)) := by
  rcases (mem_analyze_iff p cs s).mp hs with ⟨hb, hse⟩ | ⟨hr, hse⟩
  · subst hse
    refine ⟨fun _ => ?_, fun hsig => absurd hsig (by simp [mkBuySignal])⟩
    have h6 : 6 ≤ cs.length := by
      rcases (bullCond_iff cs).mp hb with ⟨⟨mh, hmh, _⟩, _⟩
      exact (liqHighPrev_some_iff cs).mp ⟨mh, hmh⟩
    rcases (liqLowPrev_some_iff cs).mpr h6 with ⟨ml, hml⟩
    exact ⟨ml, hml, rfl, by simp [mkBuySignal, hml], by simp [mkBuySignal, hml]⟩
  · subst hse
    refine ⟨fun hsig => absurd hsig (by simp [mkSellSignal]), fun _ => ?_⟩
    have h6 : 6 ≤ cs.length := by
      rcases (bearCond_iff cs).mp hr with ⟨⟨ml, hml, _⟩, _⟩
      exact (liqLowPrev_some_iff cs).mp ⟨ml, hml⟩
    rcases (liqHighPrev_some_iff cs).mpr h6 with ⟨mh, hmh⟩
    exact ⟨mh, hmh, rfl, by simp [mkSellSignal, hmh], by simp [mkSellSignal, hmh]⟩

/-- C2 witness: the BUY signal emitted on `fixBuy` satisfies the take-profit
equation. -/
theorem C2_take_profit_witness :
    ∃ ml, liqLowPrev fixBuy = some ml ∧
      fixBuySignal.entry = pyRound4 (lastC fixBuy).close ∧
      fixBuySignal.sl = pyRound4 ml ∧
      fixBuySignal.tp =
        pyRound4 ((lastC fixBuy).close + ((lastC fixBuy).close - ml) * riskRewardRatio) :=
  (C2_take_profit fixBuy "BTC/USDT" fixBuySignal
    (by rw [analyze_fixBuy]; exact List.mem_singleton.mpr rfl)).1 rfl

/-- C3: with at least 6 candles, the source's breakout test holds iff the
latest candle's high strictly exceeds the maximum high of the 5 candles
immediately preceding the latest (latest excluded), symmetrically for lows
with the minimum; an exact tie with that extreme does not trigger. -/
theorem C3_bos_strict (cs : List Candle) (h : 6 ≤ cs.length) :
    ∃ mh ml, listMax (precedingHighs cs) = some mh ∧
      listMin (precedingLows cs) = some ml ∧
      (bosBullish cs = true ↔ mh < (lastC cs).high) ∧
      (bosBearish cs = true ↔ (lastC cs).low < ml) ∧
      ((lastC cs).high = mh → bosBullish cs = false) ∧
      ((lastC cs).low = ml → bosBearish cs = false) := by
  rcases (liqHighPrev_some_iff cs).mpr h with ⟨mh, hmh⟩
  rcases (liqLowPrev_some_iff cs).mpr h with ⟨ml, hml⟩
  refine ⟨mh, ml, ?_, ?_, ?_, ?_, ?_, ?_⟩
  · rw [← liqHighPrev_eq_listMax cs h]; exact hmh
  · rw [← liqLowPrev_eq_listMin cs h]; exact hml
  · simp [bosBullish, gtOpt, hmh]
  · simp [bosBearish, ltOpt, hml]
  · intro he; simp [bosBullish, gtOpt, hmh, he]
  · intro he; simp [bosBearish, ltOpt, hml, he]

/-- C3 witness: the breakout characterization instantiated on `fixBuy`. -/
theorem C3_bos_strict_witness :
    ∃ mh ml, listMax (precedingHighs fixBuy) = some mh ∧
      listMin (precedingLows fixBuy) = some ml ∧
      (bosBullish fixBuy = true ↔ mh < (lastC fixBuy).high) ∧
      (bosBearish fixBuy = true ↔ (lastC fixBuy).low < ml) ∧
      ((lastC fixBuy).high = mh → bosBullish fixBuy = false) ∧
      ((lastC fixBuy).low = ml → bosBearish fixBuy = false) :=
  C3_bos_strict fixBuy (by norm_num [fixBuy])

/-- C4 (counterexample): two consecutive `/scan` ticks over the very same
candle data both emit the same BUY signal — the "consumed candidate" fires a
second time because no slot state exists to clear. -/
theorem C4_counterexample :
    runTicks fixFetch 2 = [fixBuySignal, fixBuySignal] ∧
    fixBuySignal.signal = "BUY" := by
  refine ⟨?_, rfl⟩
  show scan_markets fixFetch ++ (scan_markets fixFetch ++ []) = _
  rw [scan_fixFetch]
  rfl

/-- C4 (amended): the evaluation keeps no per-(instrument, direction) state:
every signal emitted by a scan over given market data is emitted again by
every later scan over the same data, with no fresh detection or tap
in between. -/
theorem C4_stateless_refire (fetch : String → Except String (List Candle))
    (s : Signal) (hs : s ∈ scan_markets fetch) :
    ∀ n, 1 ≤ n → s ∈ runTicks fetch n := by
  intro n hn
  cases n with
  | zero => omega
  | succ k => exact List.mem_append_left _ hs

/-- C4 witness: the BUY signal emitted on the first tick is still emitted
within two ticks. -/
theorem C4_stateless_refire_witness : fixBuySignal ∈ runTicks fixFetch 2 :=
  C4_stateless_refire fixFetch fixBuySignal
    (by rw [scan_fixFetch]; exact List.mem_singleton.mpr rfl) 2 (by norm_num)

/-- C5: if fetching (or analyzing) one pair raises an error, that pair
contributes no action this tick, and the whole scan still equals the
concatenation of the other pairs' analyses, each unchanged; the driver never
dies on a per-pair analysis error. -/
theorem C5_error_isolation (f g : String → Except String (List Candle))
    (p : String) (e : String) (hf : f p = Except.error e)
    (hagree : ∀ q, q ≠ p → f q = g q) :
    analyze_market p (f p) = [] ∧
    scan_markets f =
      TRADE_PAIRS.flatMap (fun q => if q = p then [] else analyze_market q (g q)) := by
  constructor
  · rw [hf]; rfl
  · have h1 : scan_markets f = TRADE_PAIRS.flatMap fun q => analyze_market q (f q) :=
      scanLoop_eq_flatMap f TRADE_PAIRS
    rw [h1]
    have hfun : (fun q => analyze_market q (f q)) =
        (fun q => if q = p then [] else analyze_market q (g q)) := by
      funext q
      by_cases hq : q = p
      · subst hq; rw [if_pos rfl, hf]; rfl
      · rw [if_neg hq, hagree q hq]
    rw [hfun]

/-- C5 witness: with the `fixFetch` feed, ETH/USDT's fetch error yields no
action for ETH/USDT while the scan still decomposes over the other pairs. -/
theorem C5_error_isolation_witness :
    analyze_market "ETH/USDT" (fixFetch "ETH/USDT") = [] ∧
    scan_markets fixFetch =
      TRADE_PAIRS.flatMap
        (fun q => if q = "ETH/USDT" then [] else analyze_market q (fixFetch q)) :=
  C5_error_isolation fixFetch fixFetch "ETH/USDT" "FetchFailure" rfl (fun _ _ => rfl)

/-- C6: fewer candles than the rolling window needs (under 6 rows) produces no
signal and no error surfaces to the caller — both the `IndexError` path (fewer
than 2 rows) and the all-`NaN` rolling-column path (2 to 5 rows) degrade to
an empty signal list. -/
theorem C6_insufficient_data (cs : List Candle) (p : String) (h : cs.length < 6) :
    analyze_market p (Except.ok cs) = [] := by
  rw [analyze_market_ok]
  have hb : bullCond cs = false := by
    simp [bullCond, bosBullish, gtOpt, liqHighPrev_eq_none cs h]
  have hr : bearCond cs = false := by
    simp [bearCond, bosBearish, ltOpt, liqLowPrev_eq_none cs h]
  simp [hb, hr]

/-- C6 witness: a 3-candle window yields no signals and no error. -/
theorem C6_insufficient_data_witness :
    analyze_market "BTC/USDT" (Except.ok (fixBuy.take 3)) = [] :=
  C6_insufficient_data (fixBuy.take 3) "BTC/USDT" (by norm_num [fixBuy])

/-- C7 (counterexample): no candle data can fire both a BUY and a SELL signal
on the same tick for one instrument — the negation of the claimed
"both directions may fire" scenario. -/
theorem C7_counterexample :
    ¬ ∃ (cs : List Candle) (p : String) (s1 s2 : Signal),
      s1 ∈ analyze_market p (Except.ok cs) ∧ s2 ∈ analyze_market p (Except.ok cs) ∧
      s1.signal = "BUY" ∧ s2.signal = "SELL" := by
  rintro ⟨cs, p, s1, s2, h1, h2, hb, hr⟩
  rcases (mem_analyze_iff p cs s1).mp h1 with ⟨hc1, he1⟩ | ⟨_, he1⟩
  · rcases (mem_analyze_iff p cs s2).mp h2 with ⟨_, he2⟩ | ⟨hc2, he2⟩
    · rw [he2] at hr
      exact absurd hr (by simp [mkBuySignal])
    · have hx := ((bullCond_iff cs).mp hc1).2
      have hy := ((bearCond_iff cs).mp hc2).2
      exact absurd hx (not_lt.mpr hy.le)
  · rw [he1] at hb
    exact absurd hb (by simp [mkSellSignal])

/-- C7 (amended): the bullish and bearish entry conditions are mutually
exclusive (they require the latest close strictly above, respectively strictly
below, the previous close), so each tick emits at most one signal per
instrument. -/
theorem C7_at_most_one_signal (cs : List Candle) (p : String) :
    (analyze_market p (Except.ok cs)).length ≤ 1 := by
  have hnot : ¬(bullCond cs = true ∧ bearCond cs = true) := by
    rintro ⟨hb, hr⟩
    have h1 := ((bullCond_iff cs).mp hb).2
    have h2 := ((bearCond_iff cs).mp hr).2
    exact absurd h1 (not_lt.mpr h2.le)
  rw [analyze_market_ok]
  cases hb : bullCond cs <;> cases hr : bearCond cs
  · simp
  · simp
  · simp
  · exact absurd ⟨hb, hr⟩ hnot

/-- C8: the analysis is a pure function of the fetched candle data — identical
data gives identical signal lists — and the scan is the independent
concatenation of per-pair analyses, with repeated ticks just repeating the
same output (no state outside the local computation). -/
theorem C8_pure_deterministic (f : String → Except String (List Candle))
    (r1 r2 : Except String (List Candle)) (p : String) (h : r1 = r2) :
    analyze_market p r1 = analyze_market p r2 ∧
    scan_markets f = TRADE_PAIRS.flatMap (fun q => analyze_market q (f q)) ∧
    ∀ n, runTicks f n = (List.replicate n (scan_markets f)).flatten :=
  ⟨by rw [h], scanLoop_eq_flatMap f TRADE_PAIRS, runTicks_eq_flatten f⟩

/-- C8 witness: instantiation on the `fixFetch` feed and the `fixBuy` data. -/
theorem C8_pure_deterministic_witness :
    analyze_market "BTC/USDT" (Except.ok fixBuy) =
      analyze_market "BTC/USDT" (Except.ok fixBuy) ∧
    scan_markets fixFetch =
      TRADE_PAIRS.flatMap (fun q => analyze_market q (fixFetch q)) ∧
    ∀ n, runTicks fixFetch n = (List.replicate n (scan_markets fixFetch)).flatten :=
  C8_pure_deterministic fixFetch (Except.ok fixBuy) (Except.ok fixBuy) "BTC/USDT" rfl

/-- C9: a BUY signal requires the latest close to be strictly above the
previous close, a SELL signal requires it strictly below, each in addition to
the breakout of the previous candle's rolling 5-bar extreme. -/
theorem C9_close_direction (cs : List Candle) (p : String) (s : Signal)
    (hs : s ∈ analyze_market p (Except.ok cs)) :
    (s.signal = "BUY" → (prevC cs).close < (lastC cs).close ∧ bosBullish cs = true) ∧
    (s.signal = "SELL" → (lastC cs).close < (prevC cs).close ∧ bosBearish cs = true) := by
  rcases (mem_analyze_iff p cs s).mp hs with ⟨hb, hse⟩ | ⟨hr, hse⟩
  · subst hse
    refine ⟨fun _ => ?_, fun hsig => absurd hsig (by simp [mkBuySignal])⟩
    simp only [bullCond, Bool.and_eq_true, decide_eq_true_eq] at hb
    exact ⟨hb.2, hb.1⟩
  · subst hse
    refine ⟨fun hsig => absurd hsig (by simp [mkSellSignal]), fun _ => ?_⟩
    simp only [bearCond, Bool.and_eq_true, decide_eq_true_eq] at hr
    exact ⟨hr.2, hr.1⟩

/-- C9 witness: the close-direction requirement instantiated on the BUY signal
of `fixBuy`. -/
theorem C9_close_direction_witness :
    (fixBuySignal.signal = "BUY" →
      (prevC fixBuy).close < (lastC fixBuy).close ∧ bosBullish fixBuy = true) ∧
    (fixBuySignal.signal = "SELL" →
      (lastC fixBuy).close < (prevC fixBuy).close ∧ bosBearish fixBuy = true) :=
  C9_close_direction fixBuy "BTC/USDT" fixBuySignal
    (by rw [analyze_fixBuy]; exact List.mem_singleton.mpr rfl)

/-- C10: on candle data with `low ≤ close ≤ high` per candle, every BUY signal
has its unrounded stop (the rolling 5-bar minimum low at the previous candle)
strictly below its unrounded entry (the latest close) and its unrounded
take-profit strictly above the entry; symmetrically for SELL. -/
theorem C10_stop_on_loss_side (cs : List Candle) (p : String) (s : Signal)
    (hwf : ∀ c ∈ cs, c.low ≤ c.close ∧ c.close ≤ c.high)
    (hs : s ∈ analyze_market p (Except.ok cs)) :
    (s.signal = "BUY" → ∃ ml, liqLowPrev cs = some ml ∧ ml < (lastC cs).close ∧
      (lastC cs).close < (lastC cs).close + ((lastC cs).close - ml) * riskRewardRatio) ∧
    (s.signal = "SELL" → ∃ mh, liqHighPrev cs = some mh ∧ (lastC cs).close < mh ∧
      (lastC cs).close - (mh - (lastC cs).close) * riskRewardRatio < (lastC cs).close) := by
  have hprev_mem : 2 ≤ cs.length → prevC cs ∈ cs := by
    intro h2
    unfold prevC
    rw [List.getD_eq_getElem cs defaultCandle (show cs.length - 2 < cs.length by omega)]
    exact List.getElem_mem _
  rcases (mem_analyze_iff p cs s).mp hs with ⟨hb, hse⟩ | ⟨hr, hse⟩
  · subst hse
    refine ⟨fun _ => ?_, fun hsig => absurd hsig (by simp [mkBuySignal])⟩
    rcases (bullCond_iff cs).mp hb with ⟨⟨mh, hmh, _⟩, hclose⟩
    have h6 : 6 ≤ cs.length := (liqHighPrev_some_iff cs).mp ⟨mh, hmh⟩
    rcases (liqLowPrev_some_iff cs).mpr h6 with ⟨ml, hml⟩
    have hle : ml ≤ (prevC cs).low := by
      have heq := liqLowPrev_eq_listMin cs h6
      rw [heq] at hml
      exact (listMin_spec _ _ hml).2 _ (prev_low_mem_precedingLows cs h6)
    have hplc := (hwf _ (hprev_mem (by omega))).1
    have hml_lt : ml < (lastC cs).close := lt_of_le_of_lt (hle.trans hplc) hclose
    refine ⟨ml, hml, hml_lt, ?_⟩
    have hpos : 0 < ((lastC cs).close - ml) * riskRewardRatio := by
      apply mul_pos
      · linarith
      · norm_num [riskRewardRatio]
    linarith
  · subst hse
    refine ⟨fun hsig => absurd hsig (by simp [mkSellSignal]), fun _ => ?_⟩
    rcases (bearCond_iff cs).mp hr with ⟨⟨ml, hml, _⟩, hclose⟩
    have h6 : 6 ≤ cs.length := (liqLowPrev_some_iff cs).mp ⟨ml, hml⟩
    rcases (liqHighPrev_some_iff cs).mpr h6 with ⟨mh, hmh⟩
    have hge : (prevC cs).high ≤ mh := by
      have heq := liqHighPrev_eq_listMax cs h6
      rw [heq] at hmh
      exact (listMax_spec _ _ hmh).2 _ (prev_high_mem_precedingHighs cs h6)
    have hpch := (hwf _ (hprev_mem (by omega))).2
    have hmh_gt : (lastC cs).close < mh := lt_of_lt_of_le hclose (hpch.trans hge)
    refine ⟨mh, hmh, hmh_gt, ?_⟩
    have hpos : 0 < (mh - (lastC cs).close) * riskRewardRatio := by
      apply mul_pos
      · linarith
      · norm_num [riskRewardRatio]
    linarith

/-- C10 witness: on `fixBuy` (whose candles satisfy `low ≤ close ≤ high`) the
emitted BUY signal's unrounded stop lies strictly below its entry and the
unrounded take-profit strictly above. -/
theorem C10_stop_on_loss_side_witness :
    ∃ ml, liqLowPrev fixBuy = some ml ∧ ml < (lastC fixBuy).close ∧
      (lastC fixBuy).close <
        (lastC fixBuy).close + ((lastC fixBuy).close - ml) * riskRewardRatio :=
  (C10_stop_on_loss_side fixBuy "BTC/USDT" fixBuySignal
    (by norm_num [fixBuy])
    (by rw [analyze_fixBuy]; exact List.mem_singleton.mpr rfl)).1 rfl

end MyBot
